import Mathlib

set_option maxHeartbeats 1000000

/-!
# Shallow embedding of `python/triton/ops/blocksparse/matmul.py`

Integer tensors are modelled as `List Nat` (every quantity involved —
reduction lengths, block counts, shape entries — is non-negative), 3-D
layouts as `List (List (List Nat))`, and code that can raise as
`Option`/`Except`.
-/

/-! ## Helpers shared by several functions -/

/-- `triton.cdiv(a, b)`, ceiling division. -/
def triton_cdiv (a b : Nat) : Nat := (a + b - 1) / b

/-- `t.max()` of an integer vector.  Torch raises on an empty tensor; the
callers below return `none` before ever reaching that case. -/
def listMax (l : List Nat) : Nat := l.foldr max 0

/-- `offsets = zeros_like(segments); offsets[1:] = cumsum(segments[:-1])`:
the exclusive prefix sum of a vector (matmul.py lines 392-393). -/
def excScan (l : List Nat) : List Nat := (List.range l.length).map (fun k => (l.take k).sum)

/-- In-place `l[k] += v` on an integer buffer. -/
def addAt (l : List Nat) (k v : Nat) : List Nat := l.set k (l.getD k 0 + v)

/-! ## `_matmul.load_balance` (matmul.py lines 348-394) -/

/-- The four output buffers of the `load_balance` filling loop together with
the `nlocks` counter.  The preallocated tensors `segments`, `column`,
`lockid`, `maxid` are modelled as lists that grow as the loop writes them:
each loop iteration writes exactly the slots `[current:last]` that follow the
slots written by the previous iterations, so slice assignment at `current`
is list append.  `lockid` and `maxid` start as `torch.zeros`, hence slots a
column does not write are 0. -/
structure LBState where
  segments : List Nat
  column : List Nat
  lockid : List Nat
  maxid : List Nat
  nlocks : Nat
deriving Repr, DecidableEq

/-- One iteration of the `for i in range(len(sizes))` loop of `load_balance`
(matmul.py lines 373-391), for a column of reduction length `L` and column
index `i`.  `d = div[i]`, `r = rem[i]`, and `current` is the number of slots
written so far.  The write `segments[current + d - 1] += r` is `addAt`. -/
def lbStep (segMax segMin i L : Nat) (s : LBState) : LBState :=
  let d := L / segMax
  let r := L % segMax
  let isempty := L < segMin
  -- `last - current = d + (r >= seg_min) + isempty`, the slot count of column i
  let pack := d + (if segMin ≤ r then 1 else 0) + (if isempty then 1 else 0)
  let current := s.segments.length
  let column := s.column ++ List.replicate pack i
  let lock := 1 < d ∨ (d = 1 ∧ segMin ≤ r)
  let nlocks := if lock then s.nlocks + 1 else s.nlocks
  let lockid := s.lockid ++ List.replicate pack (if lock then nlocks else 0)
  let maxid := s.maxid ++ List.replicate pack (if lock then pack else 0)
  let segs1 := s.segments ++ List.replicate d segMax
  let segs2 := if r < segMin ∧ ¬ isempty then addAt segs1 (current + d - 1) r else segs1
  let segs3 := if segMin ≤ r ∨ isempty then segs2 ++ [r] else segs2
  ⟨segs3, column, lockid, maxid, nlocks⟩

/-- The filling loop of `load_balance` over all columns. -/
def lbLoop (segMax segMin : Nat) : List Nat → Nat → LBState → LBState
  | [], _, s => s
  | L :: rest, i, s => lbLoop segMax segMin rest (i + 1) (lbStep segMax segMin i L s)

/-- `seg_max = sizes.max()` (matmul.py line 353/359). -/
def lbSegMax (sizes : List Nat) : Nat := listMax sizes

/-- `seg_min = max(triton.cdiv(seg_max, 4), 4)` (matmul.py line 360). -/
def lbSegMin (sizes : List Nat) : Nat := max (triton_cdiv (lbSegMax sizes) 4) 4

/-- `_matmul.load_balance(sizes)` (matmul.py lines 348-394).  Returns the
five parallel vectors `(segments, column, lockid, maxid, offsets)`.

Both `sizes.max()` (on an empty tensor) and `sizes[sizes != 0].min()`
(line 354, on a tensor with no nonzero entry) raise in torch, so the
function only returns a value when `sizes` has a nonzero entry; otherwise
it fails (`none`). -/
def lbRun (sizes : List Nat) : LBState :=
  lbLoop (lbSegMax sizes) (lbSegMin sizes) sizes 0 ⟨[], [], [], [], 0⟩

/-- `_matmul.load_balance(sizes)`: the guard and the packaging of the five
output vectors. -/
def load_balance (sizes : List Nat) :
    Option (List Nat × List Nat × List Nat × List Nat × List Nat) :=
  if sizes.any (· != 0) then
    some ((lbRun sizes).segments, (lbRun sizes).column, (lbRun sizes).lockid,
      (lbRun sizes).maxid, excScan (lbRun sizes).segments)
  else none

/-! ## Closed-form description of the loop output, proved equal below -/

/-- The segment sizes `load_balance` emits for one column of length `L`:
the column's slice of the `segments` vector. -/
def segBlock (segMax segMin L : Nat) : List Nat :=
  if L = segMax then (if segMax < segMin then [segMax, 0] else [segMax]) else [L]

/-- Per-column blocks `(column index, segment sizes)` for all columns. -/
def lbBlocks (segMax segMin : Nat) : List Nat → Nat → List (Nat × List Nat)
  | [], _ => []
  | L :: rest, i => (i, segBlock segMax segMin L) :: lbBlocks segMax segMin rest (i + 1)

/-- Concatenated segment sizes of a block list. -/
def segsOf : List (Nat × List Nat) → List Nat
  | [] => []
  | (_, b) :: rest => b ++ segsOf rest

/-- Concatenated column labels of a block list. -/
def colsOf : List (Nat × List Nat) → List Nat
  | [] => []
  | (i, b) :: rest => List.replicate b.length i ++ colsOf rest

/-- The entries of the parallel vector `l` belonging to column `i`, read off
the `column` vector `col`. -/
def colEntries (col l : List Nat) (i : Nat) : List Nat :=
  ((col.zip l).filter (fun p => p.1 == i)).map Prod.snd

/-! ## `_matmul.make_dxx_lut`, load-balancing phase (matmul.py lines 412-439)

The phase that concatenates the per-depth-slice `load_balance` outputs,
offsetting lock ids by the running maximum lock id and segment offsets by
the running block total.  The later phases (pointer increments, header
packing, lines 440-497) only rearrange these vectors and are not modelled. -/

/-- `torch.sum(m, 1)`: per-row sums of a 2-D slice. -/
def rowSums (m : List (List Nat)) : List Nat := m.map List.sum

/-- `torch.sum(m, 0)`: per-column sums of a 2-D slice. -/
def colSums (m : List (List Nat)) : List Nat := m.transpose.map List.sum

/-- `m.sum()`: sum of all entries of a 2-D slice. -/
def matSum (m : List (List Nat)) : Nat := (m.map List.sum).sum

/-- The six concatenated vectors built by the depth loop of `make_dxx_lut`. -/
structure DxxLB where
  segments : List Nat
  column : List Nat
  depth : List Nat
  lockid : List Nat
  maxid : List Nat
  offsets : List Nat
deriving Repr, DecidableEq

/-- The `for z in range(layout.size(0))` loop of `make_dxx_lut`
(matmul.py lines 423-439).  `z` is the depth-slice index, `curMax` is
`current_maxid` and `curOff` is `current_offset`.  A slice on which
`load_balance` raises (no populated block) makes the whole call fail. -/
def dxx_lb_loop (trans : Bool) : List (List (List Nat)) → Nat → Nat → Nat → DxxLB → Option DxxLB
  | [], _, _, _, acc => some acc
  | m :: rest, z, curMax, curOff, acc =>
    match load_balance (if trans then rowSums m else colSums m) with
    | none => none
    | some (seg, col, lid, mid, off) =>
      let lid' := lid.map (fun x => if 0 < x then x + curMax else x)
      dxx_lb_loop trans rest (z + 1) (listMax lid') (curOff + matSum m)
        ⟨acc.segments ++ seg, acc.column ++ col, acc.depth ++ List.replicate seg.length z,
         acc.lockid ++ lid', acc.maxid ++ mid, acc.offsets ++ off.map (· + curOff)⟩

/-- Load-balancing phase of `_matmul.make_dxx_lut(layout, block, step, trans, ...)`
(matmul.py lines 412-439). -/
def make_dxx_lut_lb (layout : List (List (List Nat))) (trans : Bool) : Option DxxLB :=
  dxx_lb_loop trans layout 0 0 0 ⟨[], [], [], [], [], []⟩

/-! ## `_matmul.get_locks` (matmul.py lines 396-401) -/

/-- A `torch.zeros(size, ...)` lock scratch buffer; `bufId` is the identity
of the allocation, so "returns the existing buffer object" is expressible. -/
structure LockBuf where
  bufId : Nat
  size : Nat
deriving Repr, DecidableEq

/-- The process-wide `_matmul.locks` dictionary (device → buffer), plus a
counter supplying fresh allocation identities. -/
structure LocksState where
  locks : Nat → Option LockBuf
  fresh : Nat

/-- `_matmul.get_locks(size, dev)`: reallocate iff the device has no buffer
yet or the request exceeds the stored buffer's size; return the stored
buffer. -/
def get_locks (size dev : Nat) (s : LocksState) : LockBuf × LocksState :=
  match s.locks dev with
  | none =>
    let nb : LockBuf := ⟨s.fresh, size⟩
    (nb, ⟨fun d => if d = dev then some nb else s.locks d, s.fresh + 1⟩)
  | some buf =>
    if buf.size < size then
      let nb : LockBuf := ⟨s.fresh, size⟩
      (nb, ⟨fun d => if d = dev then some nb else s.locks d, s.fresh + 1⟩)
    else (buf, s)

/-- Size of the buffer stored for a device (0 when absent). -/
def devSize (s : LocksState) (dev : Nat) : Nat := ((s.locks dev).map LockBuf.size).getD 0

/-- A sequence of `get_locks` calls, each a `(size, dev)` request. -/
def runLocks (reqs : List (Nat × Nat)) (s : LocksState) : LocksState :=
  reqs.foldl (fun st rq => (get_locks rq.1 rq.2 st).2) s

/-! ## `_matmul.backward` dispatch (matmul.py lines 524-549) -/

/-- The tensors a backward kernel call can receive: the saved operands `a`,
`b` and the incoming output gradient `dc`. -/
inductive Op
  | opA
  | opB
  | opDC
deriving Repr, DecidableEq

/-- One dispatch `_matmul.fn[mode](x, y, trans_x, trans_y, trans_c, ...)`. -/
structure KCall where
  mode : List Char
  x : Op
  y : Op
  tx : Bool
  ty : Bool
  tc : Bool
deriving Repr, DecidableEq

/-- The mode strings `'sdd'`, `'dsd'`, `'dds'`. -/
def sddMode : List Char := ['s', 'd', 'd']

/-- The mode string `'dsd'`. -/
def dsdMode : List Char := ['d', 's', 'd']

/-- The mode string `'dds'`. -/
def ddsMode : List Char := ['d', 'd', 's']

/-- The two kernel dispatches of `_matmul.backward` (matmul.py lines
524-549): the gradient w.r.t. `a` uses mode `mode[1]+mode[0]+mode[2]` on
`(dc, b)` with flags `(False, not trans_b, trans_a)`, the gradient w.r.t.
`b` uses mode `mode[2]+mode[1]+mode[0]` on `(a, dc)` with flags
`(not trans_a, False, trans_b)`; each is skipped when the operand does not
need a gradient. -/
def backward_calls (mode : List Char) (transA transB needsA needsB : Bool) :
    Option KCall × Option KCall :=
  let modeDA := [mode.getD 1 ' ', mode.getD 0 ' ', mode.getD 2 ' ']
  let modeDB := [mode.getD 2 ' ', mode.getD 1 ' ', mode.getD 0 ' ']
  (if needsA then some ⟨modeDA, .opDC, .opB, false, !transB, transA⟩ else none,
   if needsB then some ⟨modeDB, .opA, .opDC, !transA, false, transB⟩ else none)

/-! ## `matmul.__init__` (matmul.py lines 585-616) -/

/-- A strided integer tensor reduced to its shape and flat contents. -/
structure NDTensor where
  shape : List Nat
  data : List Nat
deriving Repr, DecidableEq

/-- `shape[-e]` for `e ∈ {1, 2}`: indexing from the end, as the negative
Python indices `-1`/`-2` do. -/
def fromEnd (l : List Nat) (e : Nat) : Nat := l.getD (l.length - e) 0

/-- The three derived fields `(dense_inner_dim, dense_inner_size,
sparse_shape)` computed for the dense-output modes (matmul.py lines
599-608).  Negative dims are encoded from the end: `-1 ↦ 1`, `-2 ↦ 2`, and
`-((d % 2) + 1)` is `3 - e`. -/
def dxxConfig (mode : List Char) (transA transB : Bool) (lshape : List Nat)
    (lsum block : Nat) : Nat × Nat × List Nat :=
  let transDense := if mode = dsdMode then transB else transA
  let transSparse := if mode = dsdMode then transA else transB
  let si := if mode = dsdMode then 1 else 2
  let denseInnerDim := if transDense then si else 3 - si
  let sparseInner := if transSparse then 3 - si else si
  (denseInnerDim, fromEnd lshape sparseInner * block, [lsum, block, block])

/-- `layout.unsqueeze(0)`. -/
def unsqueeze0 (t : NDTensor) : NDTensor := ⟨1 :: t.shape, t.data⟩

/-- The two construction-time failures of `matmul.__init__`:
`NotImplementedError` for a bad mode (line 587) and the `AssertionError`
for a layout that is not 2- or 3-dimensional (line 597). -/
inductive ConfigError
  | unsupportedMode
  | badLayoutDim
deriving Repr, DecidableEq

/-- The attributes a successfully constructed `matmul` object holds. -/
structure MatmulSchd where
  block : Nat
  mode : List Char
  transA : Bool
  transB : Bool
  denseInnerDim : Option Nat
  denseInnerSize : Option Nat
  sparseShape : Option (List Nat)
  layout : NDTensor
  spdims : List Nat
deriving Repr, DecidableEq

/-- `matmul.__init__(layout, block, mode, trans_a, trans_b)` (matmul.py
lines 585-616): mode check, layout-rank assert, derived shape fields for
the dense-output modes, then unsqueeze of a 2-D layout. -/
def matmul_init (layout : NDTensor) (block : Nat) (mode : List Char)
    (transA transB : Bool) : Except ConfigError MatmulSchd :=
  if mode = sddMode ∨ mode = dsdMode ∨ mode = ddsMode then
    if layout.shape.length = 2 ∨ layout.shape.length = 3 then
      let cfg := if mode = sddMode then none
        else some (dxxConfig mode transA transB layout.shape layout.data.sum block)
      let layout2 := if layout.shape.length = 2 then unsqueeze0 layout else layout
      .ok { block := block, mode := mode, transA := transA, transB := transB,
            denseInnerDim := cfg.map (·.1), denseInnerSize := cfg.map (·.2.1),
            sparseShape := cfg.map (·.2.2), layout := layout2, spdims := layout2.shape }
    else .error .badLayoutDim
  else .error .unsupportedMode

/-! ## Shape validation: `matmul._validate_inputs` (matmul.py lines 640-681)
and the shape checks of `sdd_matmul` (matmul.py lines 86-98) -/

/-- The shape failures a call can raise, each carrying the values the
error message names. -/
inductive ShapeError
  | denseInner (expected actual : Nat)
  | sparseShape (expected actual : List Nat)
  | tooManyDims
  | innerMismatch (ka kb : Nat)
  | reductionNotMult16 (ka : Nat)
deriving Repr, DecidableEq

/-- `shape[-n:]`: the trailing `n` entries of a shape. -/
def trailing (n : Nat) (l : List Nat) : List Nat := l.drop (l.length - n)

/-- `add_extra_dims` (matmul.py lines 666-675): pad a shape to 4 dimensions
with leading singletons, rejecting more than 4 dimensions. -/
def addExtraDims (shape : List Nat) : Except ShapeError (List Nat) :=
  if 4 < shape.length then .error .tooManyDims
  else .ok (List.replicate (4 - shape.length) 1 ++ shape)

/-- Padding of both operand shapes (matmul.py lines 677-679), `a` first. -/
def validate_pad (aShape bShape : List Nat) : Except ShapeError (List Nat × List Nat) :=
  match addExtraDims aShape, addExtraDims bShape with
  | .ok a, .ok b => .ok (a, b)
  | .error e, _ => .error e
  | _, .error e => .error e

/-- The shape-checking part of `matmul._validate_inputs` (matmul.py lines
653-679; the device and dtype checks of lines 641-651 concern no shape
and are not modelled).  For the dense-output modes the dense operand is
`a` for `'dds'` and `b` otherwise, and the checks compare against the
fields of `dxxConfig`. -/
def validate_shapes (mode : List Char) (transA transB : Bool) (lshape : List Nat)
    (lsum block : Nat) (aShape bShape : List Nat) :
    Except ShapeError (List Nat × List Nat) :=
  if mode ≠ sddMode then
    if fromEnd (if mode = ddsMode then aShape else bShape)
        (dxxConfig mode transA transB lshape lsum block).1 ≠
        (dxxConfig mode transA transB lshape lsum block).2.1 then
      .error (.denseInner (dxxConfig mode transA transB lshape lsum block).2.1
        (fromEnd (if mode = ddsMode then aShape else bShape)
          (dxxConfig mode transA transB lshape lsum block).1))
    else if trailing 3 (if mode = ddsMode then bShape else aShape) ≠
        (dxxConfig mode transA transB lshape lsum block).2.2 then
      .error (.sparseShape (dxxConfig mode transA transB lshape lsum block).2.2
        (if mode = ddsMode then bShape else aShape))
    else validate_pad aShape bShape
  else validate_pad aShape bShape

/-- The reduction-dimension comparison of `sdd_matmul` (matmul.py lines
91-98): `Ka = a.shape[-2 if trans_a else -1]` and
`Kb = b.shape[-1 if trans_b else -2]` must agree and be a multiple of 16. -/
def sdd_kcheck (aS bS : List Nat) (ta tb : Bool) : Except ShapeError Unit :=
  if fromEnd aS (if ta then 2 else 1) ≠ fromEnd bS (if tb then 1 else 2) then
    .error (.innerMismatch (fromEnd aS (if ta then 2 else 1))
      (fromEnd bS (if tb then 1 else 2)))
  else if fromEnd aS (if ta then 2 else 1) % 16 ≠ 0 then
    .error (.reductionNotMult16 (fromEnd aS (if ta then 2 else 1)))
  else .ok ()

/-- The shape checks at the top of `sdd_matmul` (matmul.py lines 86-98):
the optional `trans_c` operand swap, then the reduction-dimension check. -/
def sdd_shape_check (transA transB transC : Bool) (aShape bShape : List Nat) :
    Except ShapeError Unit :=
  if transC then sdd_kcheck bShape aShape (!transB) (!transA)
  else sdd_kcheck aShape bShape transA transB

/-! ## Concrete instances used by witnesses -/

/-- A two-slice layout exercising the depth loop of `make_dxx_lut`. -/
def layoutW : List (List (List Nat)) := [[[1, 0], [0, 1]], [[1, 1], [1, 0]]]

/-- The value of `make_dxx_lut_lb layoutW true`, spelled out. -/
def dxxW : DxxLB :=
  ⟨[1, 0, 1, 0, 2, 0, 1], [0, 0, 1, 1, 0, 0, 1], [0, 0, 0, 0, 1, 1, 1],
   [0, 0, 0, 0, 0, 0, 0], [0, 0, 0, 0, 0, 0, 0], [0, 1, 1, 2, 2, 4, 4]⟩

/-- A lock-dictionary state holding one buffer of size 5 for device 0. -/
def locksW : LocksState := ⟨fun d => if d = 0 then some ⟨7, 5⟩ else none, 1⟩

/-- The property claimed of `load_balance`'s lock assignment, at one input:
every column at least twice `seg_min` long is split into several segments
sharing one nonzero lock id, and every column shorter than `seg_min` yields
exactly one segment with lock id 0. -/
def claimC2At (sizes : List Nat) : Prop :=
  ∀ seg col lid mid off, load_balance sizes = some (seg, col, lid, mid, off) →
    (∀ i, i < sizes.length → 2 * lbSegMin sizes ≤ sizes.getD i 0 →
      1 < (colEntries col seg i).length ∧
      ∃ l, l ≠ 0 ∧ ∀ x ∈ colEntries col lid i, x = l) ∧
    (∀ i, i < sizes.length → sizes.getD i 0 < lbSegMin sizes →
      (colEntries col seg i).length = 1 ∧ colEntries col lid i = [0])

/-! ## Lemmas: closed form of the `load_balance` loop -/

theorem addAt_zero (l : List Nat) (k : Nat) : addAt l k 0 = l := by
  induction l generalizing k with
  | nil => simp [addAt]
  | cons a t ih =>
    cases k with
    | zero => simp [addAt]
    | succ k =>
      simp only [addAt, List.getD_cons_succ, List.set_cons_succ] at *
      rw [ih k]

theorem segBlock_length (segMax segMin L : Nat) :
    (segBlock segMax segMin L).length =
      1 + (if L = segMax ∧ segMax < segMin then 1 else 0) := by
  unfold segBlock
  by_cases h1 : L = segMax <;> by_cases h2 : segMax < segMin <;> simp [h1, h2]

theorem lbStep_eq (segMax segMin i L : Nat) (s : LBState)
    (hL : L ≤ segMax) (hpos : 0 < segMax) (hmin : 4 ≤ segMin) :
    lbStep segMax segMin i L s =
      ⟨s.segments ++ segBlock segMax segMin L,
       s.column ++ List.replicate (segBlock segMax segMin L).length i,
       s.lockid ++ List.replicate (segBlock segMax segMin L).length 0,
       s.maxid ++ List.replicate (segBlock segMax segMin L).length 0,
       s.nlocks⟩ := by
  rcases Nat.lt_or_ge L segMax with hlt | hge
  · -- L < segMax: one segment of size L, no lock
    have hd : L / segMax = 0 := Nat.div_eq_of_lt hlt
    have hr : L % segMax = L := Nat.mod_eq_of_lt hlt
    have hne : L ≠ segMax := Nat.ne_of_lt hlt
    have hlock : ¬ (1 < L / segMax ∨ L / segMax = 1 ∧ segMin ≤ L % segMax) := by
      rw [hd]; omega
    unfold lbStep
    simp only [hd, hr, hlock, if_neg, List.replicate_zero, List.append_nil,
      segBlock, if_neg hne]
    by_cases hsmall : L < segMin
    · have h1 : ¬ (segMin ≤ L) := by omega
      have h2 : ¬ (L < segMin ∧ ¬ L < segMin) := by omega
      simp [h1, h2, hsmall]
    · have h1 : segMin ≤ L := by omega
      have h2 : ¬ (L < segMin ∧ ¬ L < segMin) := by omega
      simp [h1, h2, hsmall]
  · -- L = segMax
    have hEq : L = segMax := le_antisymm hL hge
    subst hEq
    have hd : L / L = 1 := Nat.div_self hpos
    have hr : L % L = 0 := Nat.mod_self L
    have hm0 : ¬ segMin = 0 := by omega
    have hlock : ¬ (1 < L / L ∨ L / L = 1 ∧ segMin ≤ L % L) := by
      rw [hd, hr]; omega
    unfold lbStep
    by_cases hsmall : L < segMin
    · have h2 : ¬ (0 < segMin ∧ ¬ L < segMin) := by omega
      simp [hd, hr, hlock, h2, hm0, hsmall, segBlock, List.append_assoc]
    · have h2 : (0 < segMin ∧ ¬ L < segMin) := by omega
      have hset : addAt (s.segments ++ [L]) (s.segments.length + 1 - 1) 0 =
          s.segments ++ [L] := addAt_zero _ _
      have hset' : addAt (s.segments ++ [L]) s.segments.length 0 =
          s.segments ++ [L] := by simpa using hset
      simp [hd, hr, hlock, h2, hm0, hsmall, segBlock, hset, hset']

theorem lbLoop_eq (segMax segMin : Nat) (sizes : List Nat) (i : Nat) (s : LBState)
    (hmax : ∀ L ∈ sizes, L ≤ segMax) (hpos : 0 < segMax) (hmin : 4 ≤ segMin) :
    lbLoop segMax segMin sizes i s =
      ⟨s.segments ++ segsOf (lbBlocks segMax segMin sizes i),
       s.column ++ colsOf (lbBlocks segMax segMin sizes i),
       s.lockid ++ List.replicate (segsOf (lbBlocks segMax segMin sizes i)).length 0,
       s.maxid ++ List.replicate (segsOf (lbBlocks segMax segMin sizes i)).length 0,
       s.nlocks⟩ := by
  induction sizes generalizing i s with
  | nil => simp [lbLoop, lbBlocks, segsOf, colsOf]
  | cons L rest ih =>
    rw [lbLoop, lbStep_eq segMax segMin i L s (hmax L (List.mem_cons_self L rest)) hpos hmin,
      ih (i + 1) _ (fun x hx => hmax x (List.mem_cons_of_mem L hx))]
    simp only [lbBlocks, segsOf, colsOf, List.length_append, List.length_replicate,
      List.append_assoc, List.replicate_add]

theorem le_listMax {l : List Nat} {x : Nat} (h : x ∈ l) : x ≤ listMax l := by
  induction l with
  | nil => cases h
  | cons a t ih =>
    rcases List.mem_cons.mp h with rfl | h2
    · exact le_max_left _ _
    · exact le_trans (ih h2) (le_max_right _ _)

theorem getD_le_listMax (l : List Nat) (i : Nat) : l.getD i 0 ≤ listMax l := by
  induction l generalizing i with
  | nil => simp [List.getD]
  | cons a t ih =>
    cases i with
    | zero => exact le_max_left _ _
    | succ i => exact le_trans (ih i) (le_max_right _ _)

theorem four_le_lbSegMin (sizes : List Nat) : 4 ≤ lbSegMin sizes := le_max_right _ _

/-- Canonical form of a successful `load_balance` run. -/
theorem load_balance_eq (sizes : List Nat) (h : ∃ L ∈ sizes, L ≠ 0) :
    load_balance sizes =
      some (segsOf (lbBlocks (lbSegMax sizes) (lbSegMin sizes) sizes 0),
        colsOf (lbBlocks (lbSegMax sizes) (lbSegMin sizes) sizes 0),
        List.replicate (segsOf (lbBlocks (lbSegMax sizes) (lbSegMin sizes) sizes 0)).length 0,
        List.replicate (segsOf (lbBlocks (lbSegMax sizes) (lbSegMin sizes) sizes 0)).length 0,
        excScan (segsOf (lbBlocks (lbSegMax sizes) (lbSegMin sizes) sizes 0))) := by
  obtain ⟨L, hmem, hne⟩ := h
  have hany : sizes.any (· != 0) = true :=
    List.any_eq_true.mpr ⟨L, hmem, by simpa using hne⟩
  have hpos : 0 < lbSegMax sizes :=
    lt_of_lt_of_le (Nat.pos_of_ne_zero hne) (le_listMax hmem)
  have hrun : lbRun sizes =
      ⟨segsOf (lbBlocks (lbSegMax sizes) (lbSegMin sizes) sizes 0),
       colsOf (lbBlocks (lbSegMax sizes) (lbSegMin sizes) sizes 0),
       List.replicate (segsOf (lbBlocks (lbSegMax sizes) (lbSegMin sizes) sizes 0)).length 0,
       List.replicate (segsOf (lbBlocks (lbSegMax sizes) (lbSegMin sizes) sizes 0)).length 0,
       0⟩ := by
    unfold lbRun
    rw [lbLoop_eq (lbSegMax sizes) (lbSegMin sizes) sizes 0 _
      (fun x hx => le_listMax hx) hpos (four_le_lbSegMin sizes)]
    simp
  unfold load_balance
  rw [if_pos hany, hrun]

theorem load_balance_some_nonzero (sizes : List Nat)
    (t : List Nat × List Nat × List Nat × List Nat × List Nat)
    (heq : load_balance sizes = some t) : ∃ L ∈ sizes, L ≠ 0 := by
  by_cases hany : sizes.any (· != 0) = true
  · obtain ⟨L, hmem, hne⟩ := List.any_eq_true.mp hany
    exact ⟨L, hmem, by simpa using hne⟩
  · rw [load_balance, if_neg hany] at heq
    cases heq

/-- Inversion: the components of a successful `load_balance` run. -/
theorem load_balance_inv (sizes seg col lid mid off : List Nat)
    (heq : load_balance sizes = some (seg, col, lid, mid, off)) :
    seg = segsOf (lbBlocks (lbSegMax sizes) (lbSegMin sizes) sizes 0) ∧
    col = colsOf (lbBlocks (lbSegMax sizes) (lbSegMin sizes) sizes 0) ∧
    lid = List.replicate seg.length 0 ∧
    mid = List.replicate seg.length 0 ∧
    off = excScan seg := by
  rw [load_balance_eq sizes (load_balance_some_nonzero sizes _ heq)] at heq
  simp only [Option.some.injEq, Prod.mk.injEq] at heq
  obtain ⟨h1, h2, h3, h4, h5⟩ := heq
  subst h1
  exact ⟨rfl, h2.symm, h3.symm, h4.symm, h5.symm⟩

/-! ## Per-block facts -/

theorem segBlock_sum (segMax segMin L : Nat) : (segBlock segMax segMin L).sum = L := by
  unfold segBlock
  by_cases h1 : L = segMax <;> by_cases h2 : segMax < segMin <;> simp [h1, h2]

theorem segBlock_le (segMax segMin L : Nat) (hL : L ≤ segMax) :
    ∀ x ∈ segBlock segMax segMin L, x ≤ segMax := by
  unfold segBlock
  by_cases h1 : L = segMax <;> by_cases h2 : segMax < segMin <;>
    simp [h1, h2] <;> omega

theorem segBlock_zero (segMax segMin : Nat) (hpos : 0 < segMax) :
    segBlock segMax segMin 0 = [0] := by
  unfold segBlock
  have : (0 : Nat) ≠ segMax := by omega
  simp [this]

theorem segBlock_big (segMax segMin L : Nat) (hL : L ≤ segMax) (h2 : 2 * segMin ≤ L)
    (hmin : 4 ≤ segMin) : segBlock segMax segMin L = [L] := by
  unfold segBlock
  by_cases h1 : L = segMax
  · subst h1
    have : ¬ L < segMin := by omega
    simp [this]
  · simp [h1]

theorem segBlock_small (segMax segMin L : Nat) (hne : L ≠ segMax) :
    segBlock segMax segMin L = [L] := by simp [segBlock, hne]

theorem segBlock_small_max (segMax segMin : Nat) (hlt : segMax < segMin) :
    segBlock segMax segMin segMax = [segMax, 0] := by simp [segBlock, hlt]

/-! ## Aggregate facts about the block decomposition -/

theorem segsOf_lbBlocks_sum (segMax segMin : Nat) (sizes : List Nat) (i : Nat) :
    (segsOf (lbBlocks segMax segMin sizes i)).sum = sizes.sum := by
  induction sizes generalizing i with
  | nil => simp [lbBlocks, segsOf]
  | cons L rest ih => simp [lbBlocks, segsOf, segBlock_sum, ih]

theorem segsOf_lbBlocks_le (segMax segMin : Nat) (sizes : List Nat) (i : Nat)
    (hmax : ∀ L ∈ sizes, L ≤ segMax) :
    ∀ x ∈ segsOf (lbBlocks segMax segMin sizes i), x ≤ segMax := by
  induction sizes generalizing i with
  | nil => simp [lbBlocks, segsOf]
  | cons L rest ih =>
    intro x hx
    simp only [lbBlocks, segsOf] at hx
    rcases List.mem_append.mp hx with h1 | h2
    · exact segBlock_le segMax segMin L (hmax L (List.mem_cons_self L rest)) x h1
    · exact ih (i + 1) (fun y hy => hmax y (List.mem_cons_of_mem L hy)) x h2

theorem segsOf_lbBlocks_length_bounds (segMax segMin : Nat) (sizes : List Nat) (i : Nat) :
    sizes.length ≤ (segsOf (lbBlocks segMax segMin sizes i)).length ∧
    (segsOf (lbBlocks segMax segMin sizes i)).length ≤ 2 * sizes.length := by
  induction sizes generalizing i with
  | nil => simp [lbBlocks, segsOf]
  | cons L rest ih =>
    have hb := segBlock_length segMax segMin L
    have := ih (i + 1)
    simp only [lbBlocks, segsOf, List.length_append, List.length_cons]
    by_cases h : L = segMax ∧ segMax < segMin
    · rw [if_pos h] at hb; omega
    · rw [if_neg h] at hb; omega

theorem segsOf_lbBlocks_count (segMax segMin : Nat) (sizes : List Nat) (i : Nat)
    (hpos : 0 < segMax) :
    (segsOf (lbBlocks segMax segMin sizes i)).length ≤
      4 * (sizes.filter (· != 0)).length + (sizes.filter (· == 0)).length := by
  induction sizes generalizing i with
  | nil => simp [lbBlocks, segsOf]
  | cons L rest ih =>
    have hb := segBlock_length segMax segMin L
    have hrec := ih (i + 1)
    simp only [lbBlocks, segsOf, List.length_append, List.filter_cons]
    by_cases hz : L = 0
    · subst hz
      rw [segBlock_zero segMax segMin hpos]
      simp only [List.length_cons]
      norm_num
      omega
    · have hfz : (L == 0) = false := by simpa using hz
      have hfnz : (L != 0) = true := by simpa using hz
      simp only [hfz, hfnz, if_false, if_true, cond_false, cond_true, List.length_cons,
        Bool.false_eq_true, Bool.true_eq_false]
      by_cases h : L = segMax ∧ segMax < segMin
      · rw [if_pos h] at hb; omega
      · rw [if_neg h] at hb; omega

/-! ## Reading one column's entries back out of the parallel vectors -/

theorem colEntries_nil_left (l : List Nat) (i : Nat) : colEntries [] l i = [] := rfl

theorem colEntries_nil_right (c : List Nat) (i : Nat) : colEntries c [] i = [] := by
  cases c <;> rfl

theorem colEntries_cons (c x : Nat) (cs xs : List Nat) (i : Nat) :
    colEntries (c :: cs) (x :: xs) i =
      (if c = i then [x] else []) ++ colEntries cs xs i := by
  by_cases h : c = i <;>
    simp [colEntries, List.zip_cons_cons, List.filter_cons, h]

theorem colEntries_block (a : Nat) (b cs xs : List Nat) (i : Nat) :
    colEntries (List.replicate b.length a ++ cs) (b ++ xs) i =
      (if a = i then b else []) ++ colEntries cs xs i := by
  induction b with
  | nil => simp [List.replicate]
  | cons x b ih =>
    simp only [List.length_cons, List.replicate_succ, List.cons_append, colEntries_cons, ih]
    by_cases h : a = i <;> simp [h]

theorem colEntries_of_forall_ne (cs xs : List Nat) (i : Nat)
    (h : ∀ c ∈ cs, c ≠ i) : colEntries cs xs i = [] := by
  induction cs generalizing xs with
  | nil => rfl
  | cons c cs ih =>
    cases xs with
    | nil => exact colEntries_nil_right _ _
    | cons x xs =>
      rw [colEntries_cons, if_neg (h c (List.mem_cons_self c cs))]
      exact ih xs fun y hy => h y (List.mem_cons_of_mem c hy)

theorem colsOf_lbBlocks_ge (segMax segMin : Nat) (sizes : List Nat) (i0 : Nat) :
    ∀ c ∈ colsOf (lbBlocks segMax segMin sizes i0), i0 ≤ c := by
  induction sizes generalizing i0 with
  | nil => simp [lbBlocks, colsOf]
  | cons L rest ih =>
    intro c hc
    simp only [lbBlocks, colsOf] at hc
    rcases List.mem_append.mp hc with h1 | h2
    · exact le_of_eq (List.eq_of_mem_replicate h1).symm
    · exact le_trans (Nat.le_succ i0) (ih (i0 + 1) c h2)

/-- Column `i0 + j` of the block decomposition contributes exactly
`segBlock (sizes[j])` to the `segments` vector. -/
theorem colEntries_lbBlocks (segMax segMin : Nat) (sizes : List Nat) (i0 j : Nat)
    (hj : j < sizes.length) :
    colEntries (colsOf (lbBlocks segMax segMin sizes i0))
      (segsOf (lbBlocks segMax segMin sizes i0)) (i0 + j) =
      segBlock segMax segMin (sizes.getD j 0) := by
  induction sizes generalizing i0 j with
  | nil => simp at hj
  | cons L rest ih =>
    cases j with
    | zero =>
      simp only [lbBlocks, colsOf, segsOf, Nat.add_zero, List.getD_cons_zero]
      rw [colEntries_block,
        colEntries_of_forall_ne _ _ _ (fun c hc => by
          have := colsOf_lbBlocks_ge segMax segMin rest (i0 + 1) c hc; omega)]
      simp
    | succ j =>
      simp only [lbBlocks, colsOf, segsOf, List.getD_cons_succ]
      rw [colEntries_block]
      have hne : ¬ (i0 = i0 + (j + 1)) := by omega
      rw [if_neg hne, List.nil_append]
      have hj2 : j < rest.length := by simpa using Nat.lt_of_succ_lt_succ hj
      have := ih (i0 + 1) j hj2
      rw [show i0 + 1 + j = i0 + (j + 1) by omega] at this
      exact this

theorem colEntries_length_eq_count (col l : List Nat) (h : col.length = l.length)
    (i : Nat) : (colEntries col l i).length = col.count i := by
  induction col generalizing l with
  | nil => simp [colEntries_nil_left]
  | cons c cs ih =>
    cases l with
    | nil => simp at h
    | cons x xs =>
      rw [colEntries_cons]
      have hrec := ih xs (by simpa using h)
      by_cases hc : c = i <;>
        simp [hc, List.count_cons, hrec]

theorem colEntries_const (col : List Nat) (a i : Nat) :
    colEntries col (List.replicate col.length a) i =
      List.replicate (col.count i) a := by
  induction col with
  | nil => rfl
  | cons c cs ih =>
    simp only [List.length_cons, List.replicate_succ, colEntries_cons, ih]
    by_cases hc : c = i <;> simp [hc, List.count_cons, List.replicate_succ]

theorem colsOf_length_eq (B : List (Nat × List Nat)) :
    (colsOf B).length = (segsOf B).length := by
  induction B with
  | nil => rfl
  | cons p B ih =>
    obtain ⟨a, b⟩ := p
    simp [colsOf, segsOf, ih]

/-- Per-column content of a successful `load_balance` run: column `j`'s
segment sizes are `segBlock (sizes[j])` and its lock ids are all 0. -/
theorem load_balance_col (sizes seg col lid mid off : List Nat)
    (heq : load_balance sizes = some (seg, col, lid, mid, off))
    (j : Nat) (hj : j < sizes.length) :
    colEntries col seg j =
      segBlock (lbSegMax sizes) (lbSegMin sizes) (sizes.getD j 0) ∧
    colEntries col lid j =
      List.replicate
        (segBlock (lbSegMax sizes) (lbSegMin sizes) (sizes.getD j 0)).length 0 := by
  obtain ⟨hseg, hcol, hlid, hmid, hoff⟩ := load_balance_inv sizes seg col lid mid off heq
  subst hseg
  subst hcol
  subst hlid
  have h1 : colEntries (colsOf (lbBlocks (lbSegMax sizes) (lbSegMin sizes) sizes 0))
      (segsOf (lbBlocks (lbSegMax sizes) (lbSegMin sizes) sizes 0)) j =
      segBlock (lbSegMax sizes) (lbSegMin sizes) (sizes.getD j 0) := by
    have := colEntries_lbBlocks (lbSegMax sizes) (lbSegMin sizes) sizes 0 j hj
    simpa using this
  refine ⟨h1, ?_⟩
  rw [← colsOf_length_eq, colEntries_const,
    ← colEntries_length_eq_count _ _ (colsOf_length_eq _) j, h1]

/-! ## Lock ids through the depth loop of `make_dxx_lut` -/

theorem getD_zero_of_all_zero (l : List Nat) (h : ∀ x ∈ l, x = 0) (i : Nat) :
    l.getD i 0 = 0 := by
  induction l generalizing i with
  | nil => simp [List.getD]
  | cons a t ih =>
    cases i with
    | zero => simpa using h a (List.mem_cons_self a t)
    | succ i => simpa using ih (fun x hx => h x (List.mem_cons_of_mem a hx)) i

theorem dxx_lb_loop_lockid_zero (trans : Bool) (layout : List (List (List Nat)))
    (z curMax curOff : Nat) (acc res : DxxLB)
    (hacc : ∀ x ∈ acc.lockid, x = 0)
    (h : dxx_lb_loop trans layout z curMax curOff acc = some res) :
    ∀ x ∈ res.lockid, x = 0 := by
  induction layout generalizing z curMax curOff acc with
  | nil =>
    simp only [dxx_lb_loop, Option.some.injEq] at h
    subst h
    exact hacc
  | cons m rest ih =>
    rcases hlb : load_balance (if trans then rowSums m else colSums m) with _ | t
    · simp only [dxx_lb_loop, hlb] at h
      cases h
    · obtain ⟨seg, col, lid, mid, off⟩ := t
      simp only [dxx_lb_loop, hlb] at h
      refine ih _ _ _ _ ?_ h
      intro x hx
      simp only [List.mem_append] at hx
      rcases hx with h1 | h2
      · exact hacc x h1
      · obtain ⟨-, -, hlid, -, -⟩ := load_balance_inv _ _ _ _ _ _ hlb
        subst hlid
        simp only [List.mem_map, List.mem_replicate] at h2
        obtain ⟨y, ⟨-, hy⟩, hmap⟩ := h2
        subst hy
        simpa using hmap.symm

/-! ## Facts about `get_locks` -/

theorem get_locks_stores (size dev : Nat) (s : LocksState) :
    (get_locks size dev s).2.locks dev = some (get_locks size dev s).1 ∧
    size ≤ ((get_locks size dev s).1).size := by
  rcases hd : s.locks dev with _ | buf
  · simp [get_locks, hd]
  · by_cases hlt : buf.size < size
    · simp [get_locks, hd, hlt]
    · simp [get_locks, hd, hlt]
      omega

theorem get_locks_devSize_le (sz d : Nat) (s : LocksState) (dev : Nat) :
    devSize s dev ≤ devSize (get_locks sz d s).2 dev := by
  rcases hd : s.locks d with _ | buf
  · by_cases hdd : dev = d
    · subst hdd; simp [get_locks, devSize, hd]
    · simp [get_locks, devSize, hd, hdd]
  · by_cases hlt : buf.size < sz
    · by_cases hdd : dev = d
      · subst hdd; simp [get_locks, devSize, hd, hlt]; omega
      · simp [get_locks, devSize, hd, hlt, hdd]
    · simp [get_locks, devSize, hd, hlt]

theorem runLocks_devSize_le (reqs : List (Nat × Nat)) (s : LocksState) (dev : Nat) :
    devSize s dev ≤ devSize (runLocks reqs s) dev := by
  induction reqs generalizing s with
  | nil => simp [runLocks]
  | cons rq rest ih =>
    calc devSize s dev ≤ devSize (get_locks rq.1 rq.2 s).2 dev :=
          get_locks_devSize_le _ _ _ _
    _ ≤ devSize (runLocks (rq :: rest) s) dev := by
          simpa [runLocks] using ih (get_locks rq.1 rq.2 s).2

theorem get_locks_cached (size dev : Nat) (s : LocksState) (buf : LockBuf)
    (hb : s.locks dev = some buf) (hle : size ≤ buf.size) :
    get_locks size dev s = (buf, s) := by
  simp [get_locks, hb, Nat.not_lt.mpr hle]

/-! ## Claim theorems -/

/-- C1: for every integer vector `sizes` with at least one nonzero entry,
`load_balance` returns output vectors whose `segment_size` entries sum
exactly to the sum of `sizes`, and no individual `segment_size` entry
exceeds `max(sizes)`. -/
theorem load_balance_sum_max (sizes : List Nat) (h : ∃ L ∈ sizes, L ≠ 0) :
    ∃ seg col lid mid off, load_balance sizes = some (seg, col, lid, mid, off) ∧
      seg.sum = sizes.sum ∧ ∀ x ∈ seg, x ≤ lbSegMax sizes := by
  refine ⟨_, _, _, _, _, load_balance_eq sizes h, ?_, ?_⟩
  · exact segsOf_lbBlocks_sum _ _ _ _
  · exact segsOf_lbBlocks_le _ _ _ _ (fun x hx => le_listMax hx)

/-- Witness for C1 at the concrete input `[9, 9, 1]` of the worked
scenario: segments sum to 19 and are bounded by 9. -/
theorem load_balance_sum_max_witness :
    ∃ seg col lid mid off, load_balance [9, 9, 1] = some (seg, col, lid, mid, off) ∧
      seg.sum = [9, 9, 1].sum ∧ ∀ x ∈ seg, x ≤ lbSegMax [9, 9, 1] :=
  load_balance_sum_max [9, 9, 1] ⟨9, by decide, by decide⟩

/-- C2 counterexample: the claimed lock assignment fails at the concrete
inputs `[8]` and `[1]`.  For `[8]`, column 0 has `sizes[0] = 8 = 2*seg_min`
yet is emitted as a single segment with lock id 0; for `[1]`, column 0 has
`sizes[0] = 1 < seg_min = 4` yet is emitted as two segments, not one. -/
theorem load_balance_lock_claim_cex : ¬ claimC2At [8] ∧ ¬ claimC2At [1] := by
  constructor
  · intro hcl
    have h1 := (hcl [8] [0] [0] [0] [0] (by decide)).1 0 (by decide) (by decide)
    exact absurd h1.1 (by decide)
  · intro hcl
    have h1 := (hcl [1, 0] [0, 0] [0, 0] [0, 0] [0, 1] (by decide)).2 0 (by decide) (by decide)
    exact absurd h1.1 (by decide)

/-- C2 amended: with `seg_max = max(sizes)` no column is ever assigned a
nonzero lock id; a column with `sizes[i] >= 2*seg_min` yields exactly one
segment (of size `sizes[i]`); a column with `sizes[i] < seg_min` yields
only lock-id-0 segments — exactly one, of size `sizes[i]`, unless
`sizes[i] = max(sizes)` (possible only when `max(sizes) < 4`), in which
case it yields the two segments `[max(sizes), 0]`. -/
theorem load_balance_no_locks_amended (sizes : List Nat) (h : ∃ L ∈ sizes, L ≠ 0) :
    ∃ seg col lid mid off, load_balance sizes = some (seg, col, lid, mid, off) ∧
      (∀ x ∈ lid, x = 0) ∧
      (∀ i, i < sizes.length → 2 * lbSegMin sizes ≤ sizes.getD i 0 →
        colEntries col seg i = [sizes.getD i 0]) ∧
      (∀ i, i < sizes.length → sizes.getD i 0 < lbSegMin sizes →
        colEntries col lid i = List.replicate (colEntries col seg i).length 0 ∧
        (sizes.getD i 0 ≠ lbSegMax sizes → colEntries col seg i = [sizes.getD i 0]) ∧
        (sizes.getD i 0 = lbSegMax sizes →
          colEntries col seg i = [lbSegMax sizes, 0])) := by
  have heq := load_balance_eq sizes h
  refine ⟨_, _, _, _, _, heq, ?_, ?_, ?_⟩
  · intro x hx
    exact List.eq_of_mem_replicate hx
  · intro i hi h2
    have hc := (load_balance_col sizes _ _ _ _ _ heq i hi).1
    rw [hc]
    exact segBlock_big _ _ _ (getD_le_listMax sizes i) h2 (four_le_lbSegMin sizes)
  · intro i hi hlt
    obtain ⟨h1, h2⟩ := load_balance_col sizes _ _ _ _ _ heq i hi
    refine ⟨by rw [h2, h1], ?_, ?_⟩
    · intro hne
      rw [h1, segBlock_small _ _ _ hne]
    · intro hmax
      have hsm : lbSegMax sizes < lbSegMin sizes := by omega
      rw [h1, hmax, segBlock_small_max _ _ hsm]

/-- Witness for the amended C2 at `[8, 1]`: no locks, column 0 (length
`8 >= 2*seg_min`) is one segment, column 1 (length `1 < seg_min`) is one
unlocked segment. -/
theorem load_balance_no_locks_amended_witness :
    ∃ seg col lid mid off, load_balance [8, 1] = some (seg, col, lid, mid, off) ∧
      (∀ x ∈ lid, x = 0) ∧
      (∀ i, i < [8, 1].length → 2 * lbSegMin [8, 1] ≤ [8, 1].getD i 0 →
        colEntries col seg i = [[8, 1].getD i 0]) ∧
      (∀ i, i < [8, 1].length → [8, 1].getD i 0 < lbSegMin [8, 1] →
        colEntries col lid i = List.replicate (colEntries col seg i).length 0 ∧
        ([8, 1].getD i 0 ≠ lbSegMax [8, 1] → colEntries col seg i = [[8, 1].getD i 0]) ∧
        ([8, 1].getD i 0 = lbSegMax [8, 1] →
          colEntries col seg i = [lbSegMax [8, 1], 0])) :=
  load_balance_no_locks_amended [8, 1] ⟨8, by decide, by decide⟩

/-- C4 counterexample: at `sizes = [0, 0, 0, 0, 5]` the load balancer emits
5 segments although `sizes` has a single nonzero entry, exceeding the
claimed bound `4 * 1`. -/
theorem load_balance_segment_count_cex :
    ¬ (∀ seg col lid mid off,
        load_balance [0, 0, 0, 0, 5] = some (seg, col, lid, mid, off) →
        seg.length ≤ 4 * ([0, 0, 0, 0, 5].filter (· != 0)).length) := by
  intro hcl
  have h1 := hcl [0, 0, 0, 0, 5] [0, 1, 2, 3, 4] [0, 0, 0, 0, 0] [0, 0, 0, 0, 0]
    [0, 0, 0, 0, 0] (by decide)
  exact absurd h1 (by decide)

/-- C4 amended: the total number of emitted segments is at most
`4 * (number of nonzero entries) + (number of zero entries)` — each zero
column still contributes one (zero-length) segment, so zero columns must be
counted on top of the claimed `4 * nnz` budget. -/
theorem load_balance_segment_count_amended (sizes : List Nat)
    (h : ∃ L ∈ sizes, L ≠ 0) :
    ∃ seg col lid mid off, load_balance sizes = some (seg, col, lid, mid, off) ∧
      seg.length ≤ 4 * (sizes.filter (· != 0)).length +
        (sizes.filter (· == 0)).length := by
  have hpos : 0 < lbSegMax sizes := by
    obtain ⟨L, hm, hn⟩ := h
    exact lt_of_lt_of_le (Nat.pos_of_ne_zero hn) (le_listMax hm)
  refine ⟨_, _, _, _, _, load_balance_eq sizes h, ?_⟩
  exact segsOf_lbBlocks_count _ _ _ _ hpos

/-- Witness for the amended C4 at `[7, 7]`. -/
theorem load_balance_segment_count_amended_witness :
    ∃ seg col lid mid off, load_balance [7, 7] = some (seg, col, lid, mid, off) ∧
      seg.length ≤ 4 * ([7, 7].filter (· != 0)).length +
        ([7, 7].filter (· == 0)).length :=
  load_balance_segment_count_amended [7, 7] ⟨7, by decide, by decide⟩

/-- C5 counterexample: on the all-zero input `[0, 0]` `load_balance` does
not return an empty schedule — it fails (`none`), because
`sizes[sizes != 0].min()` raises on an empty selection. -/
theorem load_balance_all_zero_cex :
    ¬ ∃ seg col lid mid off,
        load_balance [0, 0] = some (seg, col, lid, mid, off) ∧ seg = [] := by
  rintro ⟨seg, col, lid, mid, off, heq, -⟩
  rw [show load_balance [0, 0] = none by decide] at heq
  cases heq

/-- C5 amended: on an input whose entries are all zero, `load_balance`
fails rather than returning; the caller must skip the mode entirely. -/
theorem load_balance_all_zero_fails (sizes : List Nat) (h : ∀ L ∈ sizes, L = 0) :
    load_balance sizes = none := by
  rw [load_balance, if_neg]
  simp only [List.any_eq_true, bne_iff_ne, ne_eq, not_exists, not_and, not_not]
  exact h

/-- Witness for the amended C5 at `[0]`. -/
theorem load_balance_all_zero_fails_witness : load_balance [0] = none :=
  load_balance_all_zero_fails [0] (by decide)

/-- C10: every column yields one or two segments (each quotient
`sizes[i] / seg_max` is at most 1); a zero-length column yields exactly one
segment of size 0 with lock id 0; the total segment count lies between
`len(sizes)` and `2 * len(sizes)`. -/
theorem load_balance_per_column_bounds (sizes : List Nat) (h : ∃ L ∈ sizes, L ≠ 0) :
    ∃ seg col lid mid off, load_balance sizes = some (seg, col, lid, mid, off) ∧
      (∀ i, i < sizes.length →
        1 ≤ (colEntries col seg i).length ∧ (colEntries col seg i).length ≤ 2) ∧
      (∀ i, sizes.getD i 0 / lbSegMax sizes ≤ 1) ∧
      (∀ i, i < sizes.length → sizes.getD i 0 = 0 →
        colEntries col seg i = [0] ∧ colEntries col lid i = [0]) ∧
      sizes.length ≤ seg.length ∧ seg.length ≤ 2 * sizes.length := by
  have hpos : 0 < lbSegMax sizes := by
    obtain ⟨L, hm, hn⟩ := h
    exact lt_of_lt_of_le (Nat.pos_of_ne_zero hn) (le_listMax hm)
  have heq := load_balance_eq sizes h
  refine ⟨_, _, _, _, _, heq, ?_, ?_, ?_, ?_⟩
  · intro i hi
    have hc := (load_balance_col sizes _ _ _ _ _ heq i hi).1
    rw [hc, segBlock_length]
    split_ifs <;> omega
  · intro i
    have h1 : sizes.getD i 0 ≤ lbSegMax sizes := getD_le_listMax sizes i
    calc sizes.getD i 0 / lbSegMax sizes ≤ lbSegMax sizes / lbSegMax sizes :=
          Nat.div_le_div_right h1
    _ = 1 := Nat.div_self hpos
  · intro i hi h0
    obtain ⟨h1, h2⟩ := load_balance_col sizes _ _ _ _ _ heq i hi
    rw [h0, segBlock_zero _ _ hpos] at h1 h2
    exact ⟨h1, by simpa using h2⟩
  · exact segsOf_lbBlocks_length_bounds _ _ _ _

/-- Witness for C10 at `[5, 0, 3]`, which contains a zero-length column. -/
theorem load_balance_per_column_bounds_witness :
    ∃ seg col lid mid off, load_balance [5, 0, 3] = some (seg, col, lid, mid, off) ∧
      (∀ i, i < [5, 0, 3].length →
        1 ≤ (colEntries col seg i).length ∧ (colEntries col seg i).length ≤ 2) ∧
      (∀ i, [5, 0, 3].getD i 0 / lbSegMax [5, 0, 3] ≤ 1) ∧
      (∀ i, i < [5, 0, 3].length → [5, 0, 3].getD i 0 = 0 →
        colEntries col seg i = [0] ∧ colEntries col lid i = [0]) ∧
      [5, 0, 3].length ≤ seg.length ∧ seg.length ≤ 2 * [5, 0, 3].length :=
  load_balance_per_column_bounds [5, 0, 3] ⟨5, by decide, by decide⟩

/-- C3: in the LUT built by `make_dxx_lut`, no two segments coming from
different depth slices carry the same nonzero lock id — the depth loop
offsets each slice's lock ids by the running maximum lock id. -/
theorem make_dxx_lut_lock_unique (layout : List (List (List Nat))) (trans : Bool)
    (res : DxxLB) (h : make_dxx_lut_lb layout trans = some res) (i j : Nat)
    (_hd : res.depth.getD i 0 ≠ res.depth.getD j 0) :
    ¬ (res.lockid.getD i 0 = res.lockid.getD j 0 ∧ res.lockid.getD i 0 ≠ 0) := by
  rintro ⟨-, hnz⟩
  have hzero : ∀ x ∈ res.lockid, x = 0 :=
    dxx_lb_loop_lockid_zero trans layout 0 0 0 _ res (by simp) h
  exact hnz (getD_zero_of_all_zero _ hzero i)

/-- Witness for C3 on the two-slice layout `layoutW`, with segment 0 from
depth slice 0 and segment 4 from depth slice 1. -/
theorem make_dxx_lut_lock_unique_witness :
    ¬ (dxxW.lockid.getD 0 0 = dxxW.lockid.getD 4 0 ∧ dxxW.lockid.getD 0 0 ≠ 0) :=
  make_dxx_lut_lock_unique layoutW true dxxW (by decide) 0 4 (by decide)

/-- C9: the per-device lock scratch buffer grows monotonically: after any
call the buffer stored for the device is the returned one and holds at
least `size` elements; across any sequence of calls a device's stored size
never decreases; and a request no larger than the current buffer returns
the existing buffer object with the dictionary unchanged. -/
theorem get_locks_spec (size dev : Nat) (s : LocksState) (reqs : List (Nat × Nat)) :
    ((get_locks size dev s).2.locks dev = some (get_locks size dev s).1 ∧
      size ≤ ((get_locks size dev s).1).size) ∧
    devSize s dev ≤ devSize (runLocks reqs s) dev ∧
    (∀ buf, s.locks dev = some buf → size ≤ buf.size →
      get_locks size dev s = (buf, s)) :=
  ⟨get_locks_stores size dev s, runLocks_devSize_le reqs s dev,
   fun buf hb hle => get_locks_cached size dev s buf hb hle⟩

/-- Witness for C9: requesting 3 entries on a device already holding a
5-entry buffer returns that very buffer and leaves the state unchanged. -/
theorem get_locks_spec_witness : get_locks 3 0 locksW = (⟨7, 5⟩, locksW) :=
  (get_locks_spec 3 0 locksW []).2.2 ⟨7, 5⟩ rfl (by decide)

/-- C6: the backward pass dispatches mode `m[1]+m[0]+m[2]` on `(dc, b)`
with transpose flags `(False, not trans_b)` and output-transpose flag
`trans_a` for the gradient w.r.t. the left operand, and mode
`m[2]+m[1]+m[0]` on `(a, dc)` with flags `(not trans_a, False)` and
output-transpose flag `trans_b` for the right operand; concretely
`sdd ↦ (dsd, dds)`, `dsd ↦ (sdd, dsd)`, `dds ↦ (dds, sdd)`. -/
theorem backward_dispatch (ta tb : Bool) :
    (∀ m, m = sddMode ∨ m = dsdMode ∨ m = ddsMode →
      backward_calls m ta tb true true =
        (some ⟨[m.getD 1 ' ', m.getD 0 ' ', m.getD 2 ' '], .opDC, .opB, false, !tb, ta⟩,
         some ⟨[m.getD 2 ' ', m.getD 1 ' ', m.getD 0 ' '], .opA, .opDC, !ta, false, tb⟩)) ∧
    backward_calls sddMode ta tb true true =
      (some ⟨dsdMode, .opDC, .opB, false, !tb, ta⟩,
       some ⟨ddsMode, .opA, .opDC, !ta, false, tb⟩) ∧
    backward_calls dsdMode ta tb true true =
      (some ⟨sddMode, .opDC, .opB, false, !tb, ta⟩,
       some ⟨dsdMode, .opA, .opDC, !ta, false, tb⟩) ∧
    backward_calls ddsMode ta tb true true =
      (some ⟨ddsMode, .opDC, .opB, false, !tb, ta⟩,
       some ⟨sddMode, .opA, .opDC, !ta, false, tb⟩) := by
  refine ⟨?_, rfl, rfl, rfl⟩
  rintro m (rfl | rfl | rfl) <;> rfl

/-- Witness for C6 at mode `sdd` with `trans_a = true`, `trans_b = false`. -/
theorem backward_dispatch_witness :
    backward_calls sddMode true false true true =
      (some ⟨[sddMode.getD 1 ' ', sddMode.getD 0 ' ', sddMode.getD 2 ' '],
        .opDC, .opB, false, !false, true⟩,
       some ⟨[sddMode.getD 2 ' ', sddMode.getD 1 ' ', sddMode.getD 0 ' '],
        .opA, .opDC, !true, false, false⟩) :=
  (backward_dispatch true false).1 sddMode (Or.inl rfl)

/-- C8: `matmul.__init__` fails with a configuration error iff the mode is
not one of `sdd`/`dsd`/`dds` or the layout is not 2- or 3-dimensional;
with a valid mode and a 2- or 3-dimensional layout construction
succeeds. -/
theorem matmul_init_config_iff (layout : NDTensor) (block : Nat) (mode : List Char)
    (ta tb : Bool) :
    ((∃ e, matmul_init layout block mode ta tb = .error e) ↔
      ¬ ((mode = sddMode ∨ mode = dsdMode ∨ mode = ddsMode) ∧
        (layout.shape.length = 2 ∨ layout.shape.length = 3))) ∧
    ((mode = sddMode ∨ mode = dsdMode ∨ mode = ddsMode) →
      (layout.shape.length = 2 ∨ layout.shape.length = 3) →
      ∃ st, matmul_init layout block mode ta tb = .ok st) := by
  unfold matmul_init
  by_cases h1 : mode = sddMode ∨ mode = dsdMode ∨ mode = ddsMode
  · by_cases h2 : layout.shape.length = 2 ∨ layout.shape.length = 3
    · simp [h1, h2]
    · simp [h1, h2]
  · simp [h1]

/-- Witness for C8: a valid `dsd` construction on a 3-dimensional layout
succeeds. -/
theorem matmul_init_config_iff_witness :
    ∃ st, matmul_init ⟨[1, 2, 2], [1, 0, 0, 1]⟩ 16 dsdMode false false = .ok st :=
  (matmul_init_config_iff ⟨[1, 2, 2], [1, 0, 0, 1]⟩ 16 dsdMode false false).2
    (Or.inr (Or.inl rfl)) (Or.inr rfl)

/-- C7: shape errors.  For the dense-output modes, validation fails with an
error naming expected and actual precisely when the dense operand's inner
dimension is not the layout-derived size times block, or the sparse
operand's trailing shape is not `(total blocks, block, block)`; when both
conditions hold (on 2-to-4-dimensional inputs) validation raises no shape
error.  For the sparse-output mode validation raises no shape error, and a
reduction dimension that is not a multiple of 16 makes the `sdd_matmul`
shape check fail. -/
theorem validate_shapes_spec (mode : List Char) (ta tb : Bool) (lshape : List Nat)
    (lsum block : Nat) (aShape bShape dense sparse : List Nat) (dii dis : Nat)
    (ssh : List Nat)
    (hcfg : dxxConfig mode ta tb lshape lsum block = (dii, dis, ssh))
    (hden : dense = if mode = ddsMode then aShape else bShape)
    (hsp : sparse = if mode = ddsMode then bShape else aShape) :
    ((mode = dsdMode ∨ mode = ddsMode) →
      (fromEnd dense dii ≠ dis →
        validate_shapes mode ta tb lshape lsum block aShape bShape =
          .error (.denseInner dis (fromEnd dense dii))) ∧
      (fromEnd dense dii = dis → trailing 3 sparse ≠ ssh →
        validate_shapes mode ta tb lshape lsum block aShape bShape =
          .error (.sparseShape ssh sparse)) ∧
      (fromEnd dense dii = dis → trailing 3 sparse = ssh →
        aShape.length ≤ 4 → bShape.length ≤ 4 →
        validate_shapes mode ta tb lshape lsum block aShape bShape =
          .ok (List.replicate (4 - aShape.length) 1 ++ aShape,
            List.replicate (4 - bShape.length) 1 ++ bShape))) ∧
    (mode = sddMode →
      (aShape.length ≤ 4 → bShape.length ≤ 4 →
        validate_shapes mode ta tb lshape lsum block aShape bShape =
          .ok (List.replicate (4 - aShape.length) 1 ++ aShape,
            List.replicate (4 - bShape.length) 1 ++ bShape)) ∧
      (fromEnd aShape (if ta then 2 else 1) % 16 ≠ 0 →
        ∃ e, sdd_shape_check ta tb false aShape bShape = .error e)) := by
  subst hden
  subst hsp
  constructor
  · intro hm
    have hne : mode ≠ sddMode := by
      rcases hm with rfl | rfl <;> decide
    refine ⟨?_, ?_, ?_⟩
    · intro hdi
      rw [validate_shapes, if_pos hne, hcfg]
      rw [if_pos hdi]
    · intro hdi hspne
      rw [validate_shapes, if_pos hne, hcfg]
      rw [if_neg (not_not_intro hdi), if_pos hspne]
    · intro hdi hspe ha hb
      rw [validate_shapes, if_pos hne, hcfg]
      rw [if_neg (not_not_intro hdi), if_neg (not_not_intro hspe)]
      have ha4 : ¬ 4 < aShape.length := by omega
      have hb4 : ¬ 4 < bShape.length := by omega
      simp [validate_pad, addExtraDims, ha4, hb4]
  · rintro rfl
    constructor
    · intro ha hb
      rw [validate_shapes, if_neg (not_not_intro rfl)]
      have ha4 : ¬ 4 < aShape.length := by omega
      have hb4 : ¬ 4 < bShape.length := by omega
      simp [validate_pad, addExtraDims, ha4, hb4]
    · intro h16
      rw [show sdd_shape_check ta tb false aShape bShape =
        sdd_kcheck aShape bShape ta tb from rfl]
      by_cases hka : fromEnd aShape (if ta then 2 else 1) =
          fromEnd bShape (if tb then 1 else 2)
      · exact ⟨.reductionNotMult16 (fromEnd aShape (if ta then 2 else 1)),
          by rw [sdd_kcheck, if_neg (not_not_intro hka), if_pos h16]⟩
      · exact ⟨.innerMismatch (fromEnd aShape (if ta then 2 else 1))
          (fromEnd bShape (if tb then 1 else 2)),
          by rw [sdd_kcheck, if_pos hka]⟩

/-- Witness for C7, following the worked scenario: layout shape
`[1, 2, 2]`, `block = 16`, so the expected dense inner size is
`2 * 16 = 32`; a dense operand with inner dimension 48 fails with an error
naming 32 and 48, a wrong sparse trailing shape fails naming both shapes,
matching shapes validate, `sdd` validation raises no shape error, and an
`sdd` reduction dimension of 24 fails the multiple-of-16 check. -/
theorem validate_shapes_spec_witness :
    (validate_shapes dsdMode false false [1, 2, 2] 2 16 [1, 2, 16, 16] [1, 1, 48, 8] =
      .error (.denseInner 32 48)) ∧
    (validate_shapes dsdMode false false [1, 2, 2] 2 16 [1, 3, 16, 16] [1, 1, 32, 8] =
      .error (.sparseShape [2, 16, 16] [1, 3, 16, 16])) ∧
    (validate_shapes dsdMode false false [1, 2, 2] 2 16 [1, 2, 16, 16] [1, 1, 32, 8] =
      .ok ([1, 2, 16, 16], [1, 1, 32, 8])) ∧
    (validate_shapes sddMode false false [1, 2, 2] 2 16 [1, 1, 8, 24] [1, 1, 24, 8] =
      .ok ([1, 1, 8, 24], [1, 1, 24, 8])) ∧
    (∃ e, sdd_shape_check false false false [1, 1, 8, 24] [1, 1, 24, 8] = .error e) := by
  refine ⟨?_, ?_, ?_, ?_, ?_⟩
  · exact ((validate_shapes_spec dsdMode false false [1, 2, 2] 2 16 [1, 2, 16, 16]
      [1, 1, 48, 8] _ _ 2 32 [2, 16, 16] (by decide) rfl rfl).1
      (Or.inl rfl)).1 (by decide)
  · exact (((validate_shapes_spec dsdMode false false [1, 2, 2] 2 16 [1, 3, 16, 16]
      [1, 1, 32, 8] _ _ 2 32 [2, 16, 16] (by decide) rfl rfl).1
      (Or.inl rfl)).2).1 (by decide) (by decide)
  · exact (((validate_shapes_spec dsdMode false false [1, 2, 2] 2 16 [1, 2, 16, 16]
      [1, 1, 32, 8] _ _ 2 32 [2, 16, 16] (by decide) rfl rfl).1
      (Or.inl rfl)).2).2 (by decide) (by decide) (by decide) (by decide)
  · exact ((validate_shapes_spec sddMode false false [1, 2, 2] 2 16 [1, 1, 8, 24]
      [1, 1, 24, 8] _ _ 1 32 [2, 16, 16] (by decide) rfl rfl).2 rfl).1
      (by decide) (by decide)
  · exact ((validate_shapes_spec sddMode false false [1, 2, 2] 2 16 [1, 1, 8, 24]
      [1, 1, 24, 8] _ _ 1 32 [2, 16, 16] (by decide) rfl rfl).2 rfl).2 (by decide)
